import Mathlib


/-!
Shallow embedding of `quick.py` (karlp/ch341-py2c): a host-side driver for the
CH341 USB-to-I2C bridge.  Pure command-buffer builders are translated to Lean
functions on `Nat` bytes; the USB device is an oracle (`USBDev`) mapping call
indices and requested lengths to reply byte lists; stateful methods become
functions returning the trace of USB operations performed plus the Python
return value (with `Option`/`Except` for paths that raise).
-/

/-! ## Opcode constants (classes `VendorCommands`, `I2CCommands`, `PinState` masks) -/

namespace VendorCommands

def I2C : Nat := 0xaa

def I2C_STATUS : Nat := 0x52

end VendorCommands

namespace I2CCommands

def STA : Nat := 0x74

def STO : Nat := 0x75

def OUT : Nat := 0x80

def IN : Nat := 0xc0

def MAX : Nat := 32

def SET : Nat := 0x60

def END : Nat := 0x00

end I2CCommands

namespace PinState

def ERR : Nat := 0x100

def PEMP : Nat := 0x200

def INT : Nat := 0x400

def SLCT : Nat := 0x800

def WAIT : Nat := 0x2000

def DATAS : Nat := 0x4000

def ADDRS : Nat := 0x8000

def RESET : Nat := 0x10000

def WRITE : Nat := 0x20000

def SCL : Nat := 0x400000

def SDA : Nat := 0x800000

def DXX : Nat := 0xff000000

end PinState

/-! ## USB transfer model -/

/-- One USB operation performed by the driver, as recorded in a trace:
a vendor control read (`ctrl_transfer` with request/wValue/wIndex/length),
a bulk-out write of a command buffer, or a bulk-in read of a requested length. -/
inductive USBOp where
  | ctrlRead : Nat → Nat → Nat → Nat → USBOp
  | bulkWrite : List Nat → USBOp
  | bulkRead : Nat → USBOp
  deriving DecidableEq, Repr

/-- Oracle for the USB device.  `ctrlRead i req wValue wIndex len` is the reply
to the i-th control read of the current method call; `bulkIn i len` is the
reply to the i-th bulk-in read.  Replies model `dev.ctrl_transfer` /
`dev.read` return values. -/
structure USBDev where
  ctrlRead : Nat → Nat → Nat → Nat → Nat → List Nat
  bulkIn : Nat → Nat → List Nat

/-! ## `CH341.i2c_detect` (lines 196-209) -/

/-- Command buffer built by `i2c_detect`:
`[VendorCommands.I2C, I2CCommands.STA, I2CCommands.OUT, addr, I2CCommands.STO, I2CCommands.END]`. -/
def i2c_detect_cmd (addr : Nat) : List Nat :=
  [VendorCommands.I2C, I2CCommands.STA, I2CCommands.OUT, addr,
   I2CCommands.STO, I2CCommands.END]

/-- Ack classification of the single status reply byte:
`return not (rval[0] & 0x80)` — true iff bit 0x80 is clear. -/
def ack_of_reply (r : Nat) : Bool := r &&& 0x80 == 0

/-- Method `i2c_detect(addr)`: writes `i2c_detect_cmd addr`, reads up to
`I2CCommands.MAX` bytes, asserts the reply has exactly 1 byte (else the Python
`assert` raises, modelled as `none`), and classifies the ack bit. -/
def i2c_detect (bulkIn : Nat → List Nat) (addr : Nat) : List USBOp × Option Bool :=
  let cmd := i2c_detect_cmd addr
  let rval := bulkIn I2CCommands.MAX
  ([USBOp.bulkWrite cmd, USBOp.bulkRead I2CCommands.MAX],
   match rval with
   | [r] => some (ack_of_reply r)
   | _ => none)

/-! ## `scan` (lines 352-358) -/

/-- The `scan(q)` function: `for i in range(250): r = q.i2c_detect(i); if r: results += [i]`.
Components: the addresses the loop probes in order, the `results` list it
builds (and prints), and the Python return value — `scan` has no `return`
statement, so it returns `None`. -/
def scan (detect : Nat → Bool) : List Nat × List Nat × Option (List Nat) :=
  (List.range 250,
   (List.range 250).foldl (fun results i => if detect i then results ++ [i] else results) [],
   none)

/-! ## `CH341.set_speed` (lines 154-177) -/

/-- Speed tier selector chosen by `set_speed`: the if/elif chain on `speed`. -/
def set_speed_sbit (speed : Nat) : Nat :=
  if speed < 100 then 0
  else if speed < 400 then 1
  else if speed < 750 then 2
  else 3

/-- Command buffer written by `set_speed`:
`[VendorCommands.I2C, I2CCommands.SET | sbit, I2CCommands.END]`. -/
def set_speed_cmd (speed : Nat) : List Nat :=
  [VendorCommands.I2C, I2CCommands.SET ||| set_speed_sbit speed, I2CCommands.END]

/-! ## `PinState.__init__` (lines 92-116) -/

/-- Python value passed to `PinState(bits)`: either an int or a bytes-like
sequence (elements are 0..255 by construction in Python). -/
inductive PyVal where
  | int : Nat → PyVal
  | bytes : List Nat → PyVal

/-- The constructor guard `type(bits) != type(int)`.  `type(int)` is the
metaclass `type`; neither an int value nor a bytes value has type `type`,
so the comparison is true for every argument the constructor can receive. -/
def pinState_guard : PyVal → Bool := fun _ => true

/-- Python `bytearray(bits)`: a bytes-like value is taken as is; an int `n` yields
`n` zero bytes. -/
def bytearrayOf : PyVal → List Nat
  | PyVal.int n => List.replicate n 0
  | PyVal.bytes bs => bs

/-- Python `struct.unpack_from(">IH", buf)`: big-endian unsigned 32-bit word followed
by an unsigned 16-bit word, from the first 6 bytes; fewer than 6 bytes raises
`struct.error`, modelled as `none`. -/
def unpackIH (bs : List Nat) : Option (Nat × Nat) :=
  match bs with
  | b0 :: b1 :: b2 :: b3 :: b4 :: b5 :: _ =>
      some ((b0 <<< 24) ||| (b1 <<< 16) ||| (b2 <<< 8) ||| b3, (b4 <<< 8) ||| b5)
  | _ => none

/-- The D0..D7 expansion: `for i in range(8): if (1<<i) & datax: s += ["D%d" % i]`. -/
def dxxNames (datax : Nat) : List String :=
  (List.range 8).foldl
    (fun s i => if (1 <<< i) &&& datax ≠ 0 then s ++ ["D" ++ toString i] else s) []

/-- The flag-name list built by `PinState.__init__` from the composed bit
value: one conditional append per named mask, in source order, then the
data-bus byte expanded as D0..D7. -/
def pinStateNames (bits : Nat) : List String :=
  (if bits &&& PinState.ERR ≠ 0 then ["ERR"] else []) ++
  (if bits &&& PinState.PEMP ≠ 0 then ["PEMP"] else []) ++
  (if bits &&& PinState.INT ≠ 0 then ["INT"] else []) ++
  (if bits &&& PinState.SLCT ≠ 0 then ["SLCT"] else []) ++
  (if bits &&& PinState.WAIT ≠ 0 then ["WAIT"] else []) ++
  (if bits &&& PinState.DATAS ≠ 0 then ["DATAS"] else []) ++
  (if bits &&& PinState.ADDRS ≠ 0 then ["ADDRS"] else []) ++
  (if bits &&& PinState.RESET ≠ 0 then ["RESET"] else []) ++
  (if bits &&& PinState.WRITE ≠ 0 then ["WRITE"] else []) ++
  (if bits &&& PinState.SCL ≠ 0 then ["SCL"] else []) ++
  (if bits &&& PinState.SDA ≠ 0 then ["SDA"] else []) ++
  (if bits &&& PinState.DXX ≠ 0 then dxxNames ((bits &&& PinState.DXX) >>> 24) else [])

/-- Constructor `PinState.__init__(bits)`: result is `(as_bits, names)`, or `none` where
Python raises.  The guard `type(bits) != type(int)` holds for every input, so
the raw-field branch always runs: `bits = struct.unpack_from(">IH", bytearray(bits))[0]`.
The else branch (unreachable) would use the value as the bit mask directly;
a bytes value there could not be used as an int, modelled `none`. -/
def pinState (v : PyVal) : Option (Nat × List String) :=
  let bits? : Option Nat :=
    if pinState_guard v then
      (unpackIH (bytearrayOf v)).map (fun out => out.1)
    else
      match v with
      | PyVal.int n => some n
      | PyVal.bytes _ => none
  match bits? with
  | none => none
  | some bits => some (bits, pinStateNames bits)

/-! ## `CH341.eeprom_read` (lines 241-299) -/

/-- The command buffer `eeprom_read` builds (lines 252-266 and 276-287):
addressing preamble, then the single-chunk tail for `count <= 32`, or the
padded first block plus one continuation block for `count > 32`. -/
def eeprom_read_cmd (address start count : Nat) : List Nat :=
  let eep_cmd := [address ||| ((start >>> 7) &&& 0x0e), start &&& 0xff]
  let cmd := [VendorCommands.I2C, I2CCommands.STA, I2CCommands.OUT ||| eep_cmd.length]
              ++ eep_cmd
              ++ [I2CCommands.STA, I2CCommands.OUT ||| 1, address ||| 1]
  if count ≤ 32 then
    (if 1 < count then cmd ++ [I2CCommands.IN ||| (count - 1)] else cmd)
      ++ [I2CCommands.IN, I2CCommands.STO, I2CCommands.END]
  else
    let cmd := cmd ++ [I2CCommands.IN ||| 32]
    let cmd := cmd ++ List.replicate (32 - cmd.length) 0
    let cmd := cmd ++ [VendorCommands.I2C]
    let cmd := if 0 < count - 1 - 32 then cmd ++ [I2CCommands.IN ||| (count - 1 - 32)] else cmd
    cmd ++ [I2CCommands.IN, I2CCommands.STO, I2CCommands.END]

/-- The multi-chunk receive loop (lines 291-297):
`while read_count < count: q = dev.read(EP_IN, count - read_count); read_count += len(q); rval += q`.
Each list entry records `(requested length, reply chunk)`; `i` numbers the
bulk-in calls for the oracle.  `fuel` bounds the iterations so the model is
total; every theorem below supplies enough fuel for its hypotheses (the Python
loop simply spins forever if the device keeps replying with 0 bytes). -/
def recvLoop (dev : Nat → Nat → List Nat) (count : Nat) :
    Nat → Nat → Nat → List (Nat × List Nat)
  | 0, _, _ => []
  | Nat.succ fuel2, readCount, i =>
    if readCount < count then
      let q := dev i (count - readCount)
      (count - readCount, q) :: recvLoop dev count fuel2 (readCount + q.length) (i + 1)
    else []

/-- Method `eeprom_read(address, start, count)`: offset validation, command build,
then either the single-chunk exchange (two informational status control reads
around one bulk write, then one bulk read of `count`) or the multi-chunk
write-then-drain.  Returns the USB operation trace and the Python result
(`Except.error` where Python raises). -/
def eeprom_read (dev : USBDev) (address start count : Nat) :
    List USBOp × Except String (List Nat) :=
  if 0x7ff < start then ([], Except.error ("unsupported range: start above 0x7ff"))
  else
    let cmd := eeprom_read_cmd address start count
    if count ≤ 32 then
      match unpackIH (dev.ctrlRead 0 VendorCommands.I2C_STATUS 0 0 8) with
      | none => ([USBOp.ctrlRead VendorCommands.I2C_STATUS 0 0 8],
                 Except.error ("struct.error"))
      | some _ =>
        match unpackIH (dev.ctrlRead 1 VendorCommands.I2C_STATUS 0 0 8) with
        | none => ([USBOp.ctrlRead VendorCommands.I2C_STATUS 0 0 8,
                    USBOp.bulkWrite cmd,
                    USBOp.ctrlRead VendorCommands.I2C_STATUS 0 0 8],
                   Except.error ("struct.error"))
        | some _ =>
          ([USBOp.ctrlRead VendorCommands.I2C_STATUS 0 0 8,
            USBOp.bulkWrite cmd,
            USBOp.ctrlRead VendorCommands.I2C_STATUS 0 0 8,
            USBOp.bulkRead count],
           Except.ok (dev.bulkIn 0 count))
    else
      let steps := recvLoop dev.bulkIn count count 0 0
      (USBOp.bulkWrite cmd :: steps.map (fun s => USBOp.bulkRead s.1),
       Except.ok ((steps.map Prod.snd).flatten))
/-! ## Concrete device oracles used by witness and counterexample scenarios -/

/-- Bulk-in oracle replying with the single byte 0x01 to every read. -/
def bulkIn01 : Nat → List Nat := fun _ => [0x01]

/-- Benign USB device oracle: status control reads reply with 8 zero bytes,
bulk-in reads reply with `min requested 32` zero bytes (the hardware chunk
ceiling). -/
def devW : USBDev where
  ctrlRead := fun _ _ _ _ _ => List.replicate 8 0
  bulkIn := fun _ r => List.replicate (min r 32) 0

/-- Device oracle that replies with exactly the requested number of bytes
(allowed by the claim's stated precondition, which does not cap replies at
the 32-byte hardware ceiling). -/
def devAll : USBDev where
  ctrlRead := fun _ _ _ _ _ => List.replicate 8 0
  bulkIn := fun _ r => List.replicate r 0

/-! ## Shared helper lemmas -/

/-- Membership in a conditional list segment. -/
theorem mem_if_list {α : Type} (c : Prop) [Decidable c] (a : α) (l : List α) :
    (a ∈ if c then l else []) ↔ c ∧ a ∈ l := by
  split <;> rename_i h <;> simp [h]

/-- The collect-if-true fold used by `scan` equals the accumulator followed by a filter. -/
theorem foldl_collect_eq_filter (p : Nat → Bool) :
    ∀ (l acc : List Nat),
      l.foldl (fun rs i => if p i then rs ++ [i] else rs) acc = acc ++ l.filter p := by
  intro l
  induction l with
  | nil => intro acc; simp
  | cons a l ih =>
    intro acc
    by_cases h : p a <;> simp [List.foldl_cons, h, ih, List.filter_cons]

/-! ## C5: scan -/

set_option maxRecDepth 4000 in
/-- C5 (amended): `scan` probes exactly the addresses 0..249, each once, in
ascending order; its `results` list is exactly the acked addresses in probe
order (for the 0x50/0x57 responder set it is `[0x50, 0x57]`); but the
function returns `None`, not the results list. -/
theorem scan_collects_ascending (detect : Nat → Bool) (a : Nat) :
    (scan detect).1 = List.range 250
    ∧ (scan detect).1.Nodup
    ∧ (a ∈ (scan detect).1 ↔ a < 250)
    ∧ List.Pairwise (· < ·) (scan detect).1
    ∧ (scan detect).2.1 = (List.range 250).filter detect
    ∧ (scan detect).2.2 = none
    ∧ (scan (fun x => x == 0x50 || x == 0x57)).2.1 = [0x50, 0x57] := by
  refine ⟨rfl, List.nodup_range 250, List.mem_range, List.pairwise_lt_range 250, ?_, rfl, ?_⟩
  · have h := foldl_collect_eq_filter detect (List.range 250) []
    rw [List.nil_append] at h
    exact h
  · have h := foldl_collect_eq_filter (fun x => x == 0x50 || x == 0x57) (List.range 250) []
    rw [List.nil_append] at h
    exact h.trans (by decide)

/-- C5 counterexample: with acks exactly at {0x50, 0x57}, the value `scan`
returns is `None`, not the list `[0x50, 0x57]` the claim says it returns. -/
theorem scan_return_value_is_none :
    (scan (fun x => x == 0x50 || x == 0x57)).2.2 ≠ some [0x50, 0x57] := by decide

/-! ## C6: i2c_detect command buffer -/

/-- C6 (amended): `i2c_detect` writes exactly the 6-byte buffer
vendor-I2C, start, bare output opcode (operand 0, not `OUT|1`), address,
stop, end; the write is the first bulk operation it performs. -/
theorem i2c_detect_cmd_layout (bulkIn : Nat → List Nat) (addr : Nat) :
    i2c_detect_cmd addr = [0xaa, 0x74, 0x80, addr, 0x75, 0x00]
    ∧ (i2c_detect_cmd addr).length = 6
    ∧ (i2c_detect bulkIn addr).1
        = [USBOp.bulkWrite (i2c_detect_cmd addr), USBOp.bulkRead 32] := by
  exact ⟨rfl, rfl, rfl⟩

/-- C6 counterexample: the third byte of the probe buffer is the bare output
opcode `0x80`, so the buffer differs from the claimed one whose third byte is
the output opcode OR-ed with operand 1 (`0x81`). -/
theorem i2c_detect_cmd_third_byte_not_out1 :
    i2c_detect_cmd 0x50
      ≠ [VendorCommands.I2C, I2CCommands.STA, I2CCommands.OUT ||| 1, 0x50,
         I2CCommands.STO, I2CCommands.END] := by decide

/-! ## C7: ack classification -/

/-- C7: when the bulk-in reply is the single byte `r`, `i2c_detect` returns
the ack flag of `r`; that flag is true iff bit 0x80 of `r` is clear, and it
depends on no bit of `r` other than 0x80. -/
theorem i2c_detect_ack_characterization (bulkIn : Nat → List Nat)
    (addr r r2 : Nat) (h : bulkIn I2CCommands.MAX = [r]) :
    (i2c_detect bulkIn addr).2 = some (ack_of_reply r)
    ∧ (ack_of_reply r = true ↔ r &&& 0x80 = 0)
    ∧ (r &&& 0x80 = r2 &&& 0x80 → ack_of_reply r = ack_of_reply r2) := by
  refine ⟨?_, ?_, ?_⟩
  · simp [i2c_detect, h]
  · simp [ack_of_reply]
  · intro he; simp [ack_of_reply, he]

/-- C7 witness: concrete instance at reply byte 0x01 against 0x7f (same 0x80 bit). -/
theorem i2c_detect_ack_characterization_witness :
    (i2c_detect bulkIn01 0x50).2 = some (ack_of_reply 0x01)
    ∧ (ack_of_reply 0x01 = true ↔ 0x01 &&& 0x80 = 0)
    ∧ ack_of_reply 0x01 = ack_of_reply 0x7f := by
  have h := i2c_detect_ack_characterization bulkIn01 0x50 0x01 0x7f rfl
  exact ⟨h.1, h.2.1, h.2.2 (by decide)⟩

/-! ## C8: set_speed tiers -/

/-- C8: `set_speed` always writes a 3-byte buffer `[0xaa, 0x60|sbit, 0x00]`
with the tier selector rounded down: 0 below 100 kHz, 1 in [100,400),
2 in [400,750), 3 from 750 up. -/
theorem set_speed_tier_selection (khz : Nat) :
    (set_speed_cmd khz).length = 3
    ∧ (khz < 100 → set_speed_cmd khz = [0xaa, 0x60, 0x00])
    ∧ (100 ≤ khz → khz < 400 → set_speed_cmd khz = [0xaa, 0x61, 0x00])
    ∧ (400 ≤ khz → khz < 750 → set_speed_cmd khz = [0xaa, 0x62, 0x00])
    ∧ (750 ≤ khz → set_speed_cmd khz = [0xaa, 0x63, 0x00]) := by
  refine ⟨rfl, ?_, ?_, ?_, ?_⟩
  · intro h1
    unfold set_speed_cmd set_speed_sbit
    rw [if_pos h1]
    decide
  · intro h1 h2
    unfold set_speed_cmd set_speed_sbit
    rw [if_neg (by omega), if_pos h2]
    decide
  · intro h1 h2
    unfold set_speed_cmd set_speed_sbit
    rw [if_neg (by omega), if_neg (by omega), if_pos h2]
    decide
  · intro h1
    unfold set_speed_cmd set_speed_sbit
    rw [if_neg (by omega), if_neg (by omega), if_neg (by omega)]
    decide

/-- C8 witness: one concrete speed per tier, including the boundary values. -/
theorem set_speed_tier_selection_witness :
    set_speed_cmd 20 = [0xaa, 0x60, 0x00]
    ∧ set_speed_cmd 100 = [0xaa, 0x61, 0x00]
    ∧ set_speed_cmd 400 = [0xaa, 0x62, 0x00]
    ∧ set_speed_cmd 750 = [0xaa, 0x63, 0x00] := by
  exact ⟨(set_speed_tier_selection 20).2.1 (by decide),
         (set_speed_tier_selection 100).2.2.1 (by decide) (by decide),
         (set_speed_tier_selection 400).2.2.2.1 (by decide) (by decide),
         (set_speed_tier_selection 750).2.2.2.2 (by decide)⟩

/-! ## C10: PinState integer-argument behaviour -/

/-- C10: the constructor guard compares `type(bits)` with `type(int)` (the
metaclass), so it is true for every argument; an int `n` is therefore turned
into `n` zero bytes, making `PinState(n)` raise a struct unpacking error for
`n < 6` and produce `as_bits = 0` with no flags for `n >= 6`. -/
theorem pinState_int_guard_confusion (n : Nat) :
    pinState_guard (PyVal.int n) = true
    ∧ (n < 6 → pinState (PyVal.int n) = none)
    ∧ (6 ≤ n → pinState (PyVal.int n) = some (0, [])) := by
  refine ⟨rfl, ?_, ?_⟩
  · intro h
    interval_cases n <;> rfl
  · intro h
    obtain ⟨m, rfl⟩ := Nat.exists_eq_add_of_le h
    have hrep : List.replicate (6 + m) (0:Nat) = 0::0::0::0::0::0::List.replicate m 0 := by
      simp [List.replicate_add]
    have hun : unpackIH (List.replicate (6 + m) 0) = some (0, 0) := by
      rw [hrep]
      show some _ = some _
      norm_num [unpackIH]
    have hnames : pinStateNames 0 = [] := by decide
    simp [pinState, pinState_guard, bytearrayOf, hun, hnames]

/-- C10 witness: `PinState(3)` raises, `PinState(8)` decodes to no flags. -/
theorem pinState_int_guard_confusion_witness :
    pinState_guard (PyVal.int 3) = true
    ∧ pinState (PyVal.int 3) = none
    ∧ pinState (PyVal.int 8) = some (0, []) :=
  ⟨(pinState_int_guard_confusion 3).1,
   (pinState_int_guard_confusion 3).2.1 (by decide),
   (pinState_int_guard_confusion 8).2.2 (by decide)⟩

/-! ## C9: status decoder -/

/-- Membership in the D0..D7 collecting fold. -/
theorem mem_dxx_foldl (d : Nat) :
    ∀ (l : List Nat) (acc : List String) (x : String),
      (x ∈ l.foldl (fun s i => if (1 <<< i) &&& d ≠ 0 then s ++ ["D" ++ toString i] else s) acc)
      ↔ (x ∈ acc ∨ ∃ i ∈ l, (1 <<< i) &&& d ≠ 0 ∧ x = "D" ++ toString i) := by
  intro l
  induction l with
  | nil => intro acc x; simp
  | cons a l ih =>
    intro acc x
    by_cases h : (1 <<< a) &&& d ≠ 0
    · simp only [List.foldl_cons, if_pos h, ih, List.mem_append, List.mem_cons]
      constructor
      · rintro ((hx | hx | hx) | ⟨i, hi, hbit, hx⟩)
        · exact Or.inl hx
        · exact Or.inr ⟨a, Or.inl rfl, h, hx⟩
        · cases hx
        · exact Or.inr ⟨i, Or.inr hi, hbit, hx⟩
      · rintro (hx | ⟨i, (rfl | hi), hbit, hx⟩)
        · exact Or.inl (Or.inl hx)
        · exact Or.inl (Or.inr (Or.inl hx))
        · exact Or.inr ⟨i, hi, hbit, hx⟩
    · simp only [List.foldl_cons, if_neg h, ih, List.mem_cons]
      constructor
      · rintro (hx | ⟨i, hi, hbit, hx⟩)
        · exact Or.inl hx
        · exact Or.inr ⟨i, Or.inr hi, hbit, hx⟩
      · rintro (hx | ⟨i, (rfl | hi), hbit, hx⟩)
        · exact Or.inl hx
        · exact absurd hbit h
        · exact Or.inr ⟨i, hi, hbit, hx⟩

/-- Membership in the expanded data-bus flag list. -/
theorem mem_dxxNames (x : String) (d : Nat) :
    x ∈ dxxNames d ↔ ∃ i, i < 8 ∧ (1 <<< i) &&& d ≠ 0 ∧ x = "D" ++ toString i := by
  unfold dxxNames
  rw [mem_dxx_foldl]
  simp [List.mem_range]

/-- Membership in the full flag-name list, segment by segment. -/
theorem mem_pinStateNames (bits : Nat) (x : String) :
    x ∈ pinStateNames bits ↔
      (bits &&& PinState.ERR ≠ 0 ∧ x = "ERR") ∨
      (bits &&& PinState.PEMP ≠ 0 ∧ x = "PEMP") ∨
      (bits &&& PinState.INT ≠ 0 ∧ x = "INT") ∨
      (bits &&& PinState.SLCT ≠ 0 ∧ x = "SLCT") ∨
      (bits &&& PinState.WAIT ≠ 0 ∧ x = "WAIT") ∨
      (bits &&& PinState.DATAS ≠ 0 ∧ x = "DATAS") ∨
      (bits &&& PinState.ADDRS ≠ 0 ∧ x = "ADDRS") ∨
      (bits &&& PinState.RESET ≠ 0 ∧ x = "RESET") ∨
      (bits &&& PinState.WRITE ≠ 0 ∧ x = "WRITE") ∨
      (bits &&& PinState.SCL ≠ 0 ∧ x = "SCL") ∨
      (bits &&& PinState.SDA ≠ 0 ∧ x = "SDA") ∨
      (bits &&& PinState.DXX ≠ 0 ∧ x ∈ dxxNames ((bits &&& PinState.DXX) >>> 24)) := by
  simp only [pinStateNames, List.mem_append, mem_if_list, List.mem_singleton, or_assoc]

/-- A name of the shape Dk is never produced unless it matches; helper for
excluding the data-bus segment. -/
theorem not_mem_dxxNames (x : String) (d : Nat)
    (hx : ∀ i, i < 8 → x ≠ "D" ++ toString i) : x ∉ dxxNames d := by
  intro hmem
  obtain ⟨i, hi, _, hxi⟩ := (mem_dxxNames x d).mp hmem
  exact hx i hi hxi

/-- The ERR flag appears iff the ERR mask bit-tests true. -/
theorem err_mem_pinStateNames (bits : Nat) :
    "ERR" ∈ pinStateNames bits ↔ bits &&& PinState.ERR ≠ 0 := by
  have hdxx : ("ERR" : String) ∉ dxxNames ((bits &&& PinState.DXX) >>> 24) :=
    not_mem_dxxNames _ _ (by intro i hi; interval_cases i <;> decide)
  rw [mem_pinStateNames]
  simp [hdxx]

/-- The SDA flag appears iff the SDA mask bit-tests true. -/
theorem sda_mem_pinStateNames (bits : Nat) :
    "SDA" ∈ pinStateNames bits ↔ bits &&& PinState.SDA ≠ 0 := by
  have hdxx : ("SDA" : String) ∉ dxxNames ((bits &&& PinState.DXX) >>> 24) :=
    not_mem_dxxNames _ _ (by intro i hi; interval_cases i <;> decide)
  rw [mem_pinStateNames]
  simp [hdxx]

/-- A set bit in the extracted data-bus byte implies the DXX guard passes. -/
theorem dxx_ne_zero_of_bit {bits k : Nat}
    (h : (1 <<< k) &&& ((bits &&& PinState.DXX) >>> 24) ≠ 0) :
    bits &&& PinState.DXX ≠ 0 := by
  intro h0
  rw [h0] at h
  simp at h

/-- Only the matching index produces the name Dk. -/
theorem exists_dstr_iff (d k : Nat) (hk : k < 8) :
    (∃ i, i < 8 ∧ (1 <<< i) &&& d ≠ 0 ∧ ("D" ++ toString k : String) = "D" ++ toString i)
    ↔ (1 <<< k) &&& d ≠ 0 := by
  constructor
  · rintro ⟨i, hi, hbit, hx⟩
    have hik : i = k := by
      interval_cases k <;> interval_cases i <;> first | rfl | exact absurd hx (by decide)
    rw [hik] at hbit
    exact hbit
  · intro h
    exact ⟨k, hk, h, rfl⟩

/-- The 11 fixed flag names never collide with a Dk name. -/
theorem dstr_ne_named (k : Nat) (hk : k < 8) :
    ("D" ++ toString k : String) ≠ "ERR" ∧ ("D" ++ toString k : String) ≠ "PEMP"
    ∧ ("D" ++ toString k : String) ≠ "INT" ∧ ("D" ++ toString k : String) ≠ "SLCT"
    ∧ ("D" ++ toString k : String) ≠ "WAIT" ∧ ("D" ++ toString k : String) ≠ "DATAS"
    ∧ ("D" ++ toString k : String) ≠ "ADDRS" ∧ ("D" ++ toString k : String) ≠ "RESET"
    ∧ ("D" ++ toString k : String) ≠ "WRITE" ∧ ("D" ++ toString k : String) ≠ "SCL"
    ∧ ("D" ++ toString k : String) ≠ "SDA" := by
  interval_cases k <;> decide

/-- A Dk flag appears iff bit k of the extracted data-bus byte is set. -/
theorem dk_mem_pinStateNames (bits k : Nat) (hk : k < 8) :
    ("D" ++ toString k) ∈ pinStateNames bits ↔
      (1 <<< k) &&& ((bits &&& PinState.DXX) >>> 24) ≠ 0 := by
  obtain ⟨h1, h2, h3, h4, h5, h6, h7, h8, h9, h10, h11⟩ := dstr_ne_named k hk
  rw [mem_pinStateNames]
  simp only [mem_dxxNames]
  rw [exists_dstr_iff ((bits &&& PinState.DXX) >>> 24) k hk]
  simp only [h1, h2, h3, h4, h5, h6, h7, h8, h9, h10, h11, and_false, false_or]
  constructor
  · exact fun h => h.2
  · exact fun h => ⟨dxx_ne_zero_of_bit h, h⟩

/-- C9: on an 8-byte raw status block the decoder composes the big-endian
32-bit value of the first four bytes, records it as `as_bits`, and lists the
flag names whose masks bit-test true against it — ERR and SDA appear iff their
mask bits do, and the data-bus byte is expanded into individual D0..D7 flags;
for the raw block whose composed value is exactly ERR|SDA the flag list is
exactly `["ERR", "SDA"]`. -/
theorem pinState_decode_spec (b0 b1 b2 b3 b4 b5 b6 b7 bits : Nat) :
    pinState (PyVal.bytes [b0, b1, b2, b3, b4, b5, b6, b7])
        = some ((b0 <<< 24) ||| (b1 <<< 16) ||| (b2 <<< 8) ||| b3,
                pinStateNames ((b0 <<< 24) ||| (b1 <<< 16) ||| (b2 <<< 8) ||| b3))
    ∧ ("ERR" ∈ pinStateNames bits ↔ bits &&& PinState.ERR ≠ 0)
    ∧ ("SDA" ∈ pinStateNames bits ↔ bits &&& PinState.SDA ≠ 0)
    ∧ (∀ k, k < 8 →
        (("D" ++ toString k) ∈ pinStateNames bits ↔
          (1 <<< k) &&& ((bits &&& PinState.DXX) >>> 24) ≠ 0))
    ∧ pinState (PyVal.bytes [0x00, 0x80, 0x01, 0x00, 0x00, 0x00, 0x00, 0x00])
        = some (0x800100, ["ERR", "SDA"]) := by
  refine ⟨rfl, err_mem_pinStateNames bits, sda_mem_pinStateNames bits,
          fun k hk => dk_mem_pinStateNames bits k hk, by decide⟩

/-- C9 witness: concrete instances — the ERR|SDA block scenario, the general
equation at the block `[08 80 01 00 00 00 00 00]`, and the D3 characterization
at a value with only data-bus bit 3 set. -/
theorem pinState_decode_spec_witness :
    pinState (PyVal.bytes [0x08, 0x80, 0x01, 0x00, 0x00, 0x00, 0x00, 0x00])
        = some ((0x08 <<< 24) ||| (0x80 <<< 16) ||| (0x01 <<< 8) ||| 0x00,
                pinStateNames ((0x08 <<< 24) ||| (0x80 <<< 16) ||| (0x01 <<< 8) ||| 0x00))
    ∧ (("D" ++ toString 3) ∈ pinStateNames 0x08000000 ↔
        (1 <<< 3) &&& ((0x08000000 &&& PinState.DXX) >>> 24) ≠ 0)
    ∧ pinState (PyVal.bytes [0x00, 0x80, 0x01, 0x00, 0x00, 0x00, 0x00, 0x00])
        = some (0x800100, ["ERR", "SDA"]) := by
  have h := pinState_decode_spec 0x08 0x80 0x01 0x00 0x00 0x00 0x00 0x00 0x08000000
  exact ⟨h.1, h.2.2.2.1 3 (by decide), h.2.2.2.2⟩

/-! ## C4 and C1: eeprom_read command layout -/

/-- C4: for 1 <= count <= 32 the single-chunk command is the addressing
preamble followed by `IN|(count-1)` exactly when count > 1, then the bare
input opcode, stop, end — so the buffer always ends stop+end, the opcode
before them is the bare `IN`, and the `IN|(count-1)` prefix appears iff
count > 1. -/
theorem eeprom_read_cmd_single_layout (address start count : Nat)
    (_h1 : 1 ≤ count) (h2 : count ≤ 32) :
    eeprom_read_cmd address start count =
      [0xaa, 0x74, 0x82, address ||| ((start >>> 7) &&& 0x0e), start &&& 0xff,
       0x74, 0x81, address ||| 1]
      ++ (if 1 < count then [0xc0 ||| (count - 1)] else [])
      ++ [0xc0, 0x75, 0x00] := by
  unfold eeprom_read_cmd
  rw [if_pos h2]
  by_cases h : 1 < count <;>
    simp [h, VendorCommands.I2C, I2CCommands.STA, I2CCommands.OUT, I2CCommands.IN,
      I2CCommands.STO, I2CCommands.END]

/-- C4 witness: the count = 7 and count = 1 instances at address 0xa0, start 0. -/
theorem eeprom_read_cmd_single_layout_witness :
    eeprom_read_cmd 0xa0 0x00 7 =
      [0xaa, 0x74, 0x82, 0xa0 ||| ((0x00 >>> 7) &&& 0x0e), 0x00 &&& 0xff,
       0x74, 0x81, 0xa0 ||| 1]
      ++ (if 1 < 7 then [0xc0 ||| (7 - 1)] else [])
      ++ [0xc0, 0x75, 0x00]
    ∧ eeprom_read_cmd 0xa0 0x00 1 =
      [0xaa, 0x74, 0x82, 0xa0 ||| ((0x00 >>> 7) &&& 0x0e), 0x00 &&& 0xff,
       0x74, 0x81, 0xa0 ||| 1]
      ++ (if 1 < 1 then [0xc0 ||| (1 - 1)] else [])
      ++ [0xc0, 0x75, 0x00] :=
  ⟨eeprom_read_cmd_single_layout 0xa0 0x00 7 (by decide) (by decide),
   eeprom_read_cmd_single_layout 0xa0 0x00 1 (by decide) (by decide)⟩

/-- C1 (amended): for count > 32 the buffer is the addressing preamble plus
`IN|32`, zero-padded so the continuation starts exactly at byte 32, followed
by exactly ONE continuation block: the vendor I2C opcode, `IN|(count-33)`
when count > 33 (operand NOT capped at 32), then the bare input opcode, stop
and end. -/
theorem eeprom_read_cmd_multi_layout (address start count : Nat) (h : 32 < count) :
    eeprom_read_cmd address start count =
      ([0xaa, 0x74, 0x82, address ||| ((start >>> 7) &&& 0x0e), start &&& 0xff,
        0x74, 0x81, address ||| 1, 0xe0]
       ++ List.replicate 23 0)
      ++ ([0xaa] ++ (if 33 < count then [0xc0 ||| (count - 33)] else [])
          ++ [0xc0, 0x75, 0x00])
    ∧ ([0xaa, 0x74, 0x82, address ||| ((start >>> 7) &&& 0x0e), start &&& 0xff,
        0x74, 0x81, address ||| 1, 0xe0]
       ++ List.replicate 23 0).length = 32 := by
  constructor
  · unfold eeprom_read_cmd
    rw [if_neg (by omega)]
    have hc : (0 < count - 1 - 32) = (33 < count) := by rw [eq_iff_iff]; omega
    have hc2 : (0 < count - 33) = (33 < count) := by rw [eq_iff_iff]; omega
    have hsub : count - 1 - 32 = count - 33 := by omega
    simp only [hc, hc2, hsub]
    by_cases h33 : 33 < count <;>
      simp [h33, VendorCommands.I2C, I2CCommands.STA, I2CCommands.OUT, I2CCommands.IN,
        I2CCommands.STO, I2CCommands.END]
  · simp

/-- C1 witness: the count = 40 instance at address 0xa0, start 0x10. -/
theorem eeprom_read_cmd_multi_layout_witness :
    eeprom_read_cmd 0xa0 0x10 40 =
      ([0xaa, 0x74, 0x82, 0xa0 ||| ((0x10 >>> 7) &&& 0x0e), 0x10 &&& 0xff,
        0x74, 0x81, 0xa0 ||| 1, 0xe0]
       ++ List.replicate 23 0)
      ++ ([0xaa] ++ (if 33 < 40 then [0xc0 ||| (40 - 33)] else [])
          ++ [0xc0, 0x75, 0x00])
    ∧ ([0xaa, 0x74, 0x82, 0xa0 ||| ((0x10 >>> 7) &&& 0x0e), 0x10 &&& 0xff,
        0x74, 0x81, 0xa0 ||| 1, 0xe0]
       ++ List.replicate 23 0).length = 32 :=
  eeprom_read_cmd_multi_layout 0xa0 0x10 40 (by decide)

/-- C1 counterexample: at count = 66 the continuation block's input opcode is
`IN|33` (byte 0xe1 at offset 33) whose operand 33 exceeds 32, so the claimed
"sized to the remaining count and capped at 32" fails: not every IN-family
opcode after the 32-byte boundary has its low-6-bit operand ≤ 32. -/
theorem eeprom_read_cmd_multi_uncapped :
    ¬ (∀ b ∈ (eeprom_read_cmd 0xa0 0x00 66).drop 32,
        b &&& 0xc0 = 0xc0 → b &&& 0x3f ≤ 32) := by decide

/-! ## C3: offset validation -/

/-- A status reply with at least 6 bytes always unpacks. -/
theorem unpackIH_isSome (bs : List Nat) (h : 6 ≤ bs.length) : (unpackIH bs).isSome := by
  rcases bs with _ | ⟨a, _ | ⟨b, _ | ⟨c, _ | ⟨d, _ | ⟨e, _ | ⟨f, t⟩⟩⟩⟩⟩⟩ <;>
    simp_all [unpackIH]

/-- C3: a start offset above 0x7ff makes `eeprom_read` fail with the
unsupported-range error before any USB operation at all; any start offset up
to 0x7ff passes validation and the built command buffer is bulk-written
(given that status control reads reply with at least the 6 bytes the
informational decode consumes). -/
theorem eeprom_read_range_validation (dev : USBDev) (address start count : Nat) :
    (0x7ff < start →
      eeprom_read dev address start count
        = ([], Except.error ("unsupported range: start above 0x7ff")))
    ∧ (start ≤ 0x7ff →
       (∀ i, 6 ≤ (dev.ctrlRead i VendorCommands.I2C_STATUS 0 0 8).length) →
       USBOp.bulkWrite (eeprom_read_cmd address start count)
         ∈ (eeprom_read dev address start count).1) := by
  constructor
  · intro h
    simp only [eeprom_read]
    rw [if_pos h]
  · intro h hc
    simp only [eeprom_read]
    rw [if_neg (by omega)]
    by_cases h32 : count ≤ 32
    · rw [if_pos h32]
      obtain ⟨p1, hp1⟩ := Option.isSome_iff_exists.mp (unpackIH_isSome _ (hc 0))
      obtain ⟨p2, hp2⟩ := Option.isSome_iff_exists.mp (unpackIH_isSome _ (hc 1))
      rw [hp1, hp2]
      simp
    · rw [if_neg h32]
      simp

/-- C3 witness: start 0x800 is rejected with no USB traffic; start 0x7ff is
accepted and its command written. -/
theorem eeprom_read_range_validation_witness :
    eeprom_read devW 0xa0 0x800 1
        = ([], Except.error ("unsupported range: start above 0x7ff"))
    ∧ USBOp.bulkWrite (eeprom_read_cmd 0xa0 0x7ff 1) ∈ (eeprom_read devW 0xa0 0x7ff 1).1 :=
  ⟨(eeprom_read_range_validation devW 0xa0 0x800 1).1 (by decide),
   (eeprom_read_range_validation devW 0xa0 0x7ff 1).2 (by decide)
     (fun i => by simp [devW])⟩

/-! ## C2: multi-chunk receive loop -/

/-- Unfolding the loop: with fuel left and bytes still missing, one read step
happens. -/
theorem recvLoop_succ_pos (dev : Nat → Nat → List Nat) (count f readCount i : Nat)
    (hlt : readCount < count) :
    recvLoop dev count (f + 1) readCount i
      = (count - readCount, dev i (count - readCount))
        :: recvLoop dev count f (readCount + (dev i (count - readCount)).length) (i + 1) := by
  simp only [recvLoop, if_pos hlt]

/-- Unfolding the loop: once the running total reaches `count`, it stops. -/
theorem recvLoop_stop (dev : Nat → Nat → List Nat) (count f readCount i : Nat)
    (hge : ¬ readCount < count) :
    recvLoop dev count f readCount i = [] := by
  cases f with
  | zero => simp only [recvLoop]
  | succ f2 => simp only [recvLoop, if_neg hge]

/-- Invariant of the receive loop: starting from `readCount` already received
and enough fuel, the loop gathers exactly `count - readCount` bytes; the k-th
iteration requests exactly what then remains, stores the oracle's reply for
that request, and every reply has at most 32 bytes. -/
theorem recvLoop_invariant (dev : Nat → Nat → List Nat) (count : Nat)
    (hdev : ∀ i r, 0 < r → 0 < (dev i r).length ∧ (dev i r).length ≤ min r 32) :
    ∀ fuel readCount i, readCount ≤ count → count - readCount ≤ fuel →
      (((recvLoop dev count fuel readCount i).map Prod.snd).flatten.length
          = count - readCount)
      ∧ (∀ k (hk : k < (recvLoop dev count fuel readCount i).length),
          ((recvLoop dev count fuel readCount i).get ⟨k, hk⟩).1
              = count - readCount
                - (((recvLoop dev count fuel readCount i).take k).map Prod.snd).flatten.length
          ∧ ((recvLoop dev count fuel readCount i).get ⟨k, hk⟩).2
              = dev (i + k) (((recvLoop dev count fuel readCount i).get ⟨k, hk⟩).1)
          ∧ ((recvLoop dev count fuel readCount i).get ⟨k, hk⟩).2.length ≤ 32) := by
  intro fuel
  induction fuel with
  | zero =>
    intro readCount i h1 h2
    constructor
    · simp only [recvLoop, List.map_nil, List.flatten_nil, List.length_nil]
      omega
    · intro k hk
      simp only [recvLoop, List.length_nil] at hk
      omega
  | succ f ih =>
    intro readCount i h1 h2
    by_cases hlt : readCount < count
    · have hq := hdev i (count - readCount) (by omega)
      rw [recvLoop_succ_pos dev count f readCount i hlt]
      obtain ⟨ihlen, ihget⟩ := ih (readCount + (dev i (count - readCount)).length) (i + 1)
        (by omega) (by omega)
      constructor
      · simp only [List.map_cons, List.flatten_cons, List.length_append, ihlen]
        omega
      · intro k hk
        cases k with
        | zero =>
          exact ⟨rfl, rfl, hq.2.trans (Nat.min_le_right _ _)⟩
        | succ k2 =>
          have hk2 : k2 < (recvLoop dev count f
              (readCount + (dev i (count - readCount)).length) (i + 1)).length := by
            simpa using hk
          obtain ⟨g1, g2, g3⟩ := ihget k2 hk2
          have hcons : ((count - readCount, dev i (count - readCount))
              :: recvLoop dev count f (readCount + (dev i (count - readCount)).length)
                  (i + 1)).get ⟨k2 + 1, hk⟩
              = (recvLoop dev count f (readCount + (dev i (count - readCount)).length)
                  (i + 1)).get ⟨k2, hk2⟩ := rfl
          refine ⟨?_, ?_, ?_⟩
          · rw [hcons, g1]
            have htake : ((((count - readCount, dev i (count - readCount))
                :: recvLoop dev count f (readCount + (dev i (count - readCount)).length)
                    (i + 1)).take (k2 + 1)).map Prod.snd).flatten.length
                = (dev i (count - readCount)).length
                  + ((((recvLoop dev count f (readCount + (dev i (count - readCount)).length)
                      (i + 1)).take k2).map Prod.snd).flatten).length := by
              simp [List.take_succ_cons]
            rw [htake]
            omega
          · rw [hcons, g2]
            have hidx : i + 1 + k2 = i + (k2 + 1) := by omega
            rw [hidx]
          · rw [hcons]
            exact g3
    · rw [recvLoop_stop dev count (f + 1) readCount i hlt]
      constructor
      · simp only [List.map_nil, List.flatten_nil, List.length_nil]
        omega
      · intro k hk
        simp only [List.length_nil] at hk
        omega

/-- For count > 32 the first reply is capped at 32 bytes, so a second read
is always needed: the loop performs at least two iterations. -/
theorem recvLoop_two_reads (dev : Nat → Nat → List Nat) (count : Nat)
    (hcount : 32 < count)
    (hdev : ∀ i r, 0 < r → 0 < (dev i r).length ∧ (dev i r).length ≤ min r 32) :
    2 ≤ (recvLoop dev count count 0 0).length := by
  obtain ⟨c, rfl⟩ : ∃ c, count = c + 1 := ⟨count - 1, by omega⟩
  obtain ⟨c2, rfl⟩ : ∃ c2, c = c2 + 1 := ⟨c - 1, by omega⟩
  have hq0 : (dev 0 (c2 + 1 + 1)).length ≤ 32 :=
    ((hdev 0 (c2 + 1 + 1) (by omega)).2).trans (Nat.min_le_right _ _)
  rw [recvLoop_succ_pos dev (c2 + 1 + 1) (c2 + 1) 0 0 (by omega)]
  simp only [Nat.sub_zero, Nat.zero_add]
  rw [recvLoop_succ_pos dev (c2 + 1 + 1) c2 ((dev 0 (c2 + 1 + 1)).length) 1 (by omega)]
  simp

/-- C2 (amended): for count > 32, under the precondition that every bulk-in
read replies with at least 1 byte and at most `min requested 32` bytes (the
chip's per-transfer ceiling), `eeprom_read` returns the concatenation of the
loop's chunks in arrival order, that concatenation has length exactly count,
the loop issues at least two reads, and iteration k requests exactly the
count still missing and stores the oracle's reply to that request. -/
theorem eeprom_read_multi_recv_spec (dev : USBDev) (address start count : Nat)
    (hstart : start ≤ 0x7ff) (hcount : 32 < count)
    (hdev : ∀ i r, 0 < r →
      0 < (dev.bulkIn i r).length ∧ (dev.bulkIn i r).length ≤ min r 32) :
    (eeprom_read dev address start count).2
        = Except.ok (((recvLoop dev.bulkIn count count 0 0).map Prod.snd).flatten)
    ∧ ((recvLoop dev.bulkIn count count 0 0).map Prod.snd).flatten.length = count
    ∧ 2 ≤ (recvLoop dev.bulkIn count count 0 0).length
    ∧ (∀ k (hk : k < (recvLoop dev.bulkIn count count 0 0).length),
        ((recvLoop dev.bulkIn count count 0 0).get ⟨k, hk⟩).1
            = count
              - (((recvLoop dev.bulkIn count count 0 0).take k).map Prod.snd).flatten.length
        ∧ ((recvLoop dev.bulkIn count count 0 0).get ⟨k, hk⟩).2
            = dev.bulkIn k (((recvLoop dev.bulkIn count count 0 0).get ⟨k, hk⟩).1)) := by
  obtain ⟨hlen, hget⟩ :=
    recvLoop_invariant dev.bulkIn count hdev count 0 0 (by omega) (by omega)
  have hlen0 : ((recvLoop dev.bulkIn count count 0 0).map Prod.snd).flatten.length
      = count := by simpa using hlen
  refine ⟨?_, hlen0, recvLoop_two_reads dev.bulkIn count hcount hdev, ?_⟩
  · simp only [eeprom_read]
    rw [if_neg (by omega), if_neg (by omega)]
  · intro k hk
    obtain ⟨g1, g2, _⟩ := hget k hk
    exact ⟨by simpa using g1, by simpa using g2⟩

/-- Device oracle that replies to every bulk-in read with `min requested 32`
zero bytes; concrete multi-chunk scenario driver. -/
theorem eeprom_read_multi_recv_spec_witness :
    (eeprom_read devW 0xa0 0x00 65).2
        = Except.ok (((recvLoop devW.bulkIn 65 65 0 0).map Prod.snd).flatten)
    ∧ ((recvLoop devW.bulkIn 65 65 0 0).map Prod.snd).flatten.length = 65
    ∧ 2 ≤ (recvLoop devW.bulkIn 65 65 0 0).length := by
  have h := eeprom_read_multi_recv_spec devW 0xa0 0x00 65 (by decide) (by decide)
    (fun i r hr => ⟨by simp [devW]; omega, by simp [devW]⟩)
  exact ⟨h.1, h.2.1, h.2.2.1⟩

/-- C2 counterexample: `devAll` satisfies the claim's precondition (each read
returns at least 1 and at most the requested number of bytes), yet for
count = 65 the loop performs exactly ONE bulk-in read, refuting the claimed
"at least two bulk-in reads" — that part needs the 32-byte reply ceiling. -/
theorem eeprom_read_recv_single_read_possible :
    (∀ i r, 0 < r →
      0 < (devAll.bulkIn i r).length ∧ (devAll.bulkIn i r).length ≤ r)
    ∧ (recvLoop devAll.bulkIn 65 65 0 0).length = 1
    ∧ ((recvLoop devAll.bulkIn 65 65 0 0).map Prod.snd).flatten.length = 65 := by
  refine ⟨fun i r hr => ⟨by simp [devAll]; omega, by simp [devAll]⟩, by decide, by decide⟩
